import Mathlib

/-!
Shallow embedding of the document-parser collection: per-provider parser
classes (Amazon Textract, Mistral OCR, LlamaParse, Unstructured.io, Azure
Document Intelligence), their page/chunk normalization, output-file naming,
markdown serialization, and the batch loops over a directory listing.

Provider calls, the filesystem, and the wall clock are modelled as explicit
parameters: a provider is a function from file name and attempt index to an
outcome, the set of available input files is a list of names, and the two
successive `datetime.now()` readings made by `process_pdf` are the
`nowIso` / `nowStamp` arguments.
-/

namespace DocParser

/-- Errors a parser run can raise: the `FileNotFoundError` check, and
provider-side failures (transient vs fatal), mirroring the exception
taxonomy visible in the source. -/
inductive PErr where
  | fileNotFound (path : String)
  | transient (msg : String)
  | fatal (msg : String)
deriving DecidableEq, Repr

/-- One document returned by `AmazonTextractPDFLoader.load()`: its
`page_content` and its `metadata` mapping. -/
structure TextractDoc where
  page_content : String
  metadata : List (String × String)
deriving DecidableEq, Repr

/-- One entry of `results["pages"]` built by `AmazonTextractParser.process_pdf`. -/
structure TextractPage where
  page_number : Nat
  content : String
  metadata : List (String × String)
deriving DecidableEq, Repr

/-- The dict returned by `AmazonTextractParser.process_pdf`. -/
structure TextractResult where
  file_name : String
  processed_at : String
  pages : List TextractPage
deriving DecidableEq, Repr

/-- The `for i, doc in enumerate(docs)` loop of `AmazonTextractParser.process_pdf`,
started at index `k` (the source starts the page numbers at `i + 1`). -/
def textractPagesFrom (k : Nat) : List TextractDoc → List TextractPage
  | [] => []
  | d :: ds => ⟨k, d.page_content, d.metadata⟩ :: textractPagesFrom (k + 1) ds

/-- Pages built by `AmazonTextractParser.process_pdf`: `page_number = i + 1`
by enumeration order, `content = doc.page_content`, metadata passed through. -/
def textractPages (docs : List TextractDoc) : List TextractPage :=
  textractPagesFrom 1 docs

/-- One document returned by `LlamaParse.load_data`. -/
structure LlamaDoc where
  text : String
deriving DecidableEq, Repr

/-- One entry of `results["chunks"]` built by `LlamaDocParser.process_pdf`. -/
structure LlamaChunk where
  chunk_number : Nat
  content : String
deriving DecidableEq, Repr

/-- The dict returned by `LlamaDocParser.process_pdf`. -/
structure LlamaResult where
  file_name : String
  processed_at : String
  chunks : List LlamaChunk
deriving DecidableEq, Repr

/-- The `for i, doc in enumerate(documents)` loop of `LlamaDocParser.process_pdf`,
started at index `k` (the source starts the chunk numbers at `i + 1`). -/
def llamaChunksFrom (k : Nat) : List LlamaDoc → List LlamaChunk
  | [] => []
  | d :: ds => ⟨k, d.text⟩ :: llamaChunksFrom (k + 1) ds

/-- Chunks built by `LlamaDocParser.process_pdf`: `chunk_number = i + 1`
by enumeration order. -/
def llamaChunks (docs : List LlamaDoc) : List LlamaChunk :=
  llamaChunksFrom 1 docs

/-- One page of the Mistral OCR response (`response.pages`): a provider-chosen
`index` and the extracted `markdown`. -/
structure MistralRespPage where
  index : Int
  markdown : String
deriving DecidableEq, Repr

/-- One entry of `results["pages"]` built by `MistralOCRParser.process_pdf`. -/
structure MistralPage where
  page_number : Int
  content : String
deriving DecidableEq, Repr

/-- The dict returned by `MistralOCRParser.process_pdf`. -/
structure MistralResult where
  file_name : String
  processed_at : String
  pages : List MistralPage
deriving DecidableEq, Repr

/-- The page loop of `MistralOCRParser.process_pdf`: `page_number = page.index`
copied verbatim from the provider response, `content = page.markdown`. -/
def mistralPages (resp : List MistralRespPage) : List MistralPage :=
  resp.map fun p => ⟨p.index, p.markdown⟩

/-- Python rsplit on the last dot, keeping the first part: everything
before the last dot, or the whole string when there is no dot. -/
def rsplitStem (s : String) : String :=
  match s.data.reverse.dropWhile (fun c => c ≠ '.') with
  | [] => s
  | _ :: rest => ⟨rest.reverse⟩

/-- Output file name in `AmazonTextractParser.process_pdf`: the stem of the
file name, an underscore, the timestamp, and the extension md. -/
def textractOutputName (file_name stamp : String) : String :=
  rsplitStem file_name ++ "_" ++ stamp ++ ".md"

/-- Output file name in `MistralOCRParser.process_pdf` (same shape as Textract). -/
def mistralOutputName (file_name stamp : String) : String :=
  rsplitStem file_name ++ "_" ++ stamp ++ ".md"

/-- Output file name in `LlamaDocParser.process_pdf` (same shape as Textract). -/
def llamaOutputName (file_name stamp : String) : String :=
  rsplitStem file_name ++ "_" ++ stamp ++ ".md"

/-- Output file name in `UnstructuredParser.process_pdf`: the stem of the
file name, an underscore, the timestamp, and the extension txt. -/
def unstructuredOutputName (file_name stamp : String) : String :=
  rsplitStem file_name ++ "_" ++ stamp ++ ".txt"

/-- Output file name in `AzureDocParser.process_document`: the whole blob
name (no extension stripping), an underscore, the timestamp, and md. -/
def azureOutputName (blob_name stamp : String) : String :=
  blob_name ++ "_" ++ stamp ++ ".md"

/-- The successive `f.write(...)` payloads of `AmazonTextractParser.process_pdf`:
a header line, the `Processed at:` line, then per page a `## Page n` heading,
the page content, and a `---` separator. -/
def textractWriteSteps (r : TextractResult) : List String :=
  ("# Textract Results for " ++ r.file_name ++ "\n\n") ::
  ("Processed at: " ++ r.processed_at ++ "\n\n") ::
  r.pages.flatMap (fun p =>
    ["## Page " ++ Nat.repr p.page_number ++ "\n\n", p.content, "\n\n---\n\n"])

/-- The full markdown artifact written by `AmazonTextractParser.process_pdf`. -/
def textractMarkdown (r : TextractResult) : String :=
  String.join (textractWriteSteps r)

/-- The successive `f.write(...)` payloads of `MistralOCRParser.process_pdf`:
a header line, then per page a heading, the content, and a separator.
No `Processed at:` line is written. -/
def mistralWriteSteps (r : MistralResult) : List String :=
  ("# OCR Results for " ++ r.file_name ++ "\n\n") ::
  r.pages.flatMap (fun p =>
    ["## Page " ++ p.page_number.repr ++ "\n\n", p.content, "\n\n---\n\n"])

/-- The full markdown artifact written by `MistralOCRParser.process_pdf`. -/
def mistralMarkdown (r : MistralResult) : String :=
  String.join (mistralWriteSteps r)

/-- The successive `f.write(...)` payloads of `LlamaDocParser.process_pdf`.
No `Processed at:` line is written. -/
def llamaWriteSteps (r : LlamaResult) : List String :=
  ("# Parsing Results for " ++ r.file_name ++ "\n\n") ::
  r.chunks.flatMap (fun c =>
    ["## Document Chunk " ++ Nat.repr c.chunk_number ++ "\n\n", c.content, "\n\n---\n\n"])

/-- The full markdown artifact written by `LlamaDocParser.process_pdf`. -/
def llamaMarkdown (r : LlamaResult) : String :=
  String.join (llamaWriteSteps r)

/-- A filesystem as a partial map from path to file content. -/
def FS := String → Option String

/-- Overwrite one file. -/
def setFile (fs : FS) (path content : String) : FS :=
  fun p => if p = path then some content else fs p

/-- Append a chunk to an (already open) file, as one `f.write(...)` call does. -/
def appendFile (fs : FS) (path chunk : String) : FS :=
  setFile fs path (((fs path).getD "") ++ chunk)

/-- `open(output_file, 'w')`: create or truncate the file at `path`.
The source opens the final output path directly, with no temporary path. -/
def openWrite (fs : FS) (path : String) : FS :=
  setFile fs path ""

/-- Run the write loop of `process_pdf`: open the final output path, then
perform the first `done` of the `f.write(...)` calls in `chunks`.
`done ≥ chunks.length` models a write that ran to completion; a smaller
`done` models a crash after `done` chunks. -/
def runWrite (fs : FS) (path : String) (chunks : List String) (done : Nat) : FS :=
  (chunks.take done).foldl (fun acc c => appendFile acc path c) (openWrite fs path)

/-- Everything observable about one `AmazonTextractParser.process_pdf` call:
the returned dict or raised error, how many provider submissions were made,
and the `(path, content)` writes performed. -/
structure TextractRun where
  result : Except PErr TextractResult
  providerCalls : Nat
  writes : List (String × String)

/-- `AmazonTextractParser.process_pdf`: raise `FileNotFoundError` when the
input path is absent (before any provider call); otherwise call the loader
once (attempt 0), propagate its error unchanged, or build the result dict
and write the markdown artifact. `nowIso` and `nowStamp` are the two
successive `datetime.now()` readings the source makes. -/
def textractProcessPdf (dataFiles : List String)
    (loadAttempt : String → Nat → Except PErr (List TextractDoc))
    (file_name nowIso nowStamp : String) : TextractRun :=
  if file_name ∈ dataFiles then
    match loadAttempt file_name 0 with
    | .error e => ⟨.error e, 1, []⟩
    | .ok docs =>
        let res : TextractResult := ⟨file_name, nowIso, textractPages docs⟩
        ⟨.ok res, 1, [(textractOutputName file_name nowStamp, textractMarkdown res)]⟩
  else ⟨.error (.fileNotFound file_name), 0, []⟩

/-- Everything observable about one `MistralOCRParser.process_pdf` call. -/
structure MistralRun where
  result : Except PErr MistralResult
  providerCalls : Nat
  writes : List (String × String)

/-- `MistralOCRParser.process_pdf`: raise `FileNotFoundError` when the input
path is absent (before any upload); otherwise perform the
upload/sign/ocr protocol once (attempt 0), propagate its error unchanged,
or build the result dict and write the markdown artifact. -/
def mistralProcessPdf (dataFiles : List String)
    (ocrAttempt : String → Nat → Except PErr (List MistralRespPage))
    (file_name nowIso nowStamp : String) : MistralRun :=
  if file_name ∈ dataFiles then
    match ocrAttempt file_name 0 with
    | .error e => ⟨.error e, 1, []⟩
    | .ok resp =>
        let res : MistralResult := ⟨file_name, nowIso, mistralPages resp⟩
        ⟨.ok res, 1, [(mistralOutputName file_name nowStamp, mistralMarkdown res)]⟩
  else ⟨.error (.fileNotFound file_name), 0, []⟩

/-- Everything observable about one `UnstructuredParser.process_pdf` call.
On success the function returns the output path as a plain string. -/
structure UnstructuredRun where
  result : Except PErr String
  providerCalls : Nat
  writes : List (String × String)

/-- `UnstructuredParser.process_pdf`: raise `FileNotFoundError` when the input
path is absent (before any provider call); otherwise call the loader once
(attempt 0), join all element texts with a newline into one flat string,
write it to a `.txt` artifact, and return the output path string. -/
def unstructuredProcessPdf (inputFiles : List String)
    (loadAttempt : String → Nat → Except PErr (List String))
    (file_name nowStamp : String) : UnstructuredRun :=
  if file_name ∈ inputFiles then
    match loadAttempt file_name 0 with
    | .error e => ⟨.error e, 1, []⟩
    | .ok docs =>
        let extracted := String.intercalate "\n" docs
        let path := unstructuredOutputName file_name nowStamp
        ⟨.ok path, 1, [(path, extracted)]⟩
  else ⟨.error (.fileNotFound file_name), 0, []⟩

/-- `AmazonTextractParser.process_directory`: iterate the names yielded by
`data_dir.glob("*.pdf")` in the order the iterator returns them (`listing`),
call `process_pdf` on each, append the result on success, and on any
exception log and `continue`. Only the list of successes is returned;
no failure records are part of the return value. -/
def textractProcessDirectory (dataFiles : List String)
    (loadAttempt : String → Nat → Except PErr (List TextractDoc))
    (listing : List String) (nowIso nowStamp : String) : List TextractResult :=
  listing.filterMap
    (fun n => (textractProcessPdf dataFiles loadAttempt n nowIso nowStamp).result.toOption)

/-- `MistralOCRParser.process_directory`: same loop shape as Textract's. -/
def mistralProcessDirectory (dataFiles : List String)
    (ocrAttempt : String → Nat → Except PErr (List MistralRespPage))
    (listing : List String) (nowIso nowStamp : String) : List MistralResult :=
  listing.filterMap
    (fun n => (mistralProcessPdf dataFiles ocrAttempt n nowIso nowStamp).result.toOption)

/-- `UnstructuredParser.process_directory`: same loop shape, collecting the
returned output paths. -/
def unstructuredProcessDirectory (inputFiles : List String)
    (loadAttempt : String → Nat → Except PErr (List String))
    (listing : List String) (nowStamp : String) : List String :=
  listing.filterMap
    (fun n => (unstructuredProcessPdf inputFiles loadAttempt n nowStamp).result.toOption)

/-- Modelled from the spec: "Transient provider errors are retried with
bounded exponential backoff (e.g., 3 attempts) at the adapter level".
The repository contains no retry code; this is the spec's claimed submit
behavior, for comparison: up to three attempts, retrying only on
`TransientError`. -/
def specRetrySubmit (attempt : Nat → Except PErr (List TextractDoc)) :
    Except PErr (List TextractDoc) :=
  match attempt 0 with
  | .ok d => .ok d
  | .error (.transient _) =>
      match attempt 1 with
      | .ok d => .ok d
      | .error (.transient _) => attempt 2
      | .error e => .error e
  | .error e => .error e

/-- Decidable lexicographic order on character lists, used to state the
spec's "lexicographic by path" ordering. -/
def lexLe : List Char → List Char → Bool
  | [], _ => true
  | _ :: _, [] => false
  | x :: xs, y :: ys => if x = y then lexLe xs ys else decide (x < y)

/-- Modelled from the spec: "Iterates documents in a stable, deterministic
order (lexicographic by path)". The repository applies no sort; this is the
spec's claimed iteration order, for comparison. -/
def specLexSorted (listing : List String) : List String :=
  List.insertionSort (fun a b => lexLe a.data b.data = true) listing

/-- Modelled from the spec: the OutputWriter naming contract says the
stamp is taken from the processed_at field. Reformats an ISO-8601
`YYYY-MM-DDTHH:MM:SS...` timestamp into `YYYYMMDD_HHMMSS` by dropping the
dashes and colons, mapping the `T` to an underscore, and truncating to the
second. -/
def specStampOfIso (iso : String) : String :=
  ⟨(((iso.data.filter (fun c => !(c == '-') && !(c == ':'))).map
      (fun c => if c = 'T' then '_' else c)).take 15)⟩

/-- Modelled from the spec: the output name the writer contract prescribes,
with the stamp derived from the result's `processed_at` field. -/
def specOutputName (file_name iso : String) : String :=
  rsplitStem file_name ++ "_" ++ specStampOfIso iso ++ ".md"

/-- Strip an exact character-list prefix, returning the remainder. -/
def stripPre : List Char → List Char → Option (List Char)
  | [], s => some s
  | _ :: _, [] => none
  | p :: ps, c :: cs => if p = c then stripPre ps cs else none

/-- Split a character list at the first occurrence of the separator `sep`,
returning the part before it and the part after it. -/
def splitAtSeq (sep : List Char) : List Char → Option (List Char × List Char)
  | [] => none
  | c :: cs =>
    if sep.isPrefixOf (c :: cs) then some ([], (c :: cs).drop sep.length)
    else
      match splitAtSeq sep cs with
      | some (a, b) => some (c :: a, b)
      | none => none

/-- Modelled from the spec: the repository writes markdown artifacts but
contains no reader for them; this parses the page sections of the fixed
format of the spec's OutputWriter ("## Page n", blank line, page text,
`---` separator), returning the page texts. `fuel` bounds the recursion. -/
def parsePagesAux : Nat → List Char → Option (List (List Char))
  | 0, s => if s = [] then some [] else none
  | fuel + 1, s =>
    if s = [] then some []
    else
      match stripPre ("## Page ").data s with
      | none => none
      | some s1 =>
        match splitAtSeq ['\n', '\n'] s1 with
        | none => none
        | some (_, s2) =>
          match splitAtSeq ("\n\n---\n\n").data s2 with
          | none => none
          | some (body, s3) => (parsePagesAux fuel s3).map (body :: ·)

/-- Modelled from the spec: reader for the Textract markdown artifact,
recovering the file name, the `Processed at:` timestamp, and the page texts. -/
def parseTextractMarkdown (s : String) : Option (String × String × List String) :=
  match stripPre ("# Textract Results for ").data s.data with
  | none => none
  | some s1 =>
    match splitAtSeq ['\n', '\n'] s1 with
    | none => none
    | some (fn, s2) =>
      match stripPre ("Processed at: ").data s2 with
      | none => none
      | some s3 =>
        match splitAtSeq ['\n', '\n'] s3 with
        | none => none
        | some (ts, s4) =>
          (parsePagesAux s4.length s4).map
            (fun bodies => (⟨fn⟩, ⟨ts⟩, bodies.map (⟨·⟩)))

/-! Helper lemmas. -/

theorem textractPagesFrom_map (k : Nat) (docs : List TextractDoc) :
    (textractPagesFrom k docs).map (fun p => p.page_number) = List.range' k docs.length := by
  induction docs generalizing k with
  | nil => rfl
  | cons d ds ih => simp [textractPagesFrom, List.range', ih]

theorem llamaChunksFrom_map (k : Nat) (docs : List LlamaDoc) :
    (llamaChunksFrom k docs).map (fun c => c.chunk_number) = List.range' k docs.length := by
  induction docs generalizing k with
  | nil => rfl
  | cons d ds ih => simp [llamaChunksFrom, List.range', ih]

theorem chain'_lt_range' (s n : Nat) : List.Chain' (· < ·) (List.range' s n) :=
  (List.pairwise_lt_range' s n).chain'

theorem mistralPages_map (resp : List MistralRespPage) :
    (mistralPages resp).map (fun p => p.page_number) = resp.map (fun p => p.index) := by
  simp [mistralPages]

theorem stripPre_append (pre rest : List Char) : stripPre pre (pre ++ rest) = some rest := by
  induction pre with
  | nil => rfl
  | cons p ps ih => simp [stripPre, ih]

theorem splitAtSeq_append (h : Char) (t a rest : List Char) (ha : h ∉ a) :
    splitAtSeq (h :: t) (a ++ ((h :: t) ++ rest)) = some (a, rest) := by
  induction a with
  | nil =>
      have e : ([] : List Char) ++ ((h :: t) ++ rest) = h :: (t ++ rest) := by simp
      have hpre : (h :: t).isPrefixOf (h :: (t ++ rest)) = true :=
        List.isPrefixOf_iff_prefix.mpr (List.prefix_append _ _)
      have hdrop : List.drop (h :: t).length (h :: (t ++ rest)) = rest :=
        List.drop_left (h :: t) rest
      rw [e]
      simp only [splitAtSeq, hpre, if_true, hdrop]
  | cons c cs ih =>
      have hc : h ≠ c := fun hEq => ha (hEq ▸ List.mem_cons_self c cs)
      have ha' : h ∉ cs := fun hmem => ha (List.mem_cons_of_mem c hmem)
      have e : (c :: cs) ++ ((h :: t) ++ rest) = c :: (cs ++ ((h :: t) ++ rest)) := by simp
      have hpre : (h :: t).isPrefixOf (c :: (cs ++ ((h :: t) ++ rest))) = false := by
        simp [List.isPrefixOf, hc]
      rw [e]
      simp only [splitAtSeq, hpre, Bool.false_eq_true, if_false]
      rw [ih ha']

theorem digitChar_ne_nl : ∀ m < 16, Nat.digitChar m ≠ '\n' := by decide

theorem toDigitsCore_ne_nl (fuel n : Nat) (ds : List Char)
    (hds : '\n' ∉ ds) : '\n' ∉ Nat.toDigitsCore 10 fuel n ds := by
  induction fuel generalizing n ds with
  | zero => simpa [Nat.toDigitsCore] using hds
  | succ fuel ih =>
      have hd : Nat.digitChar (n % 10) ≠ '\n' := by
        have : n % 10 < 16 := Nat.lt_of_lt_of_le (Nat.mod_lt _ (by decide)) (by decide)
        exact digitChar_ne_nl _ this
      have hds' : '\n' ∉ (Nat.digitChar (n % 10) :: ds) := by
        intro hmem
        rcases List.mem_cons.mp hmem with hEq | hmem'
        · exact hd hEq.symm
        · exact hds hmem'
      by_cases hz : n / 10 = 0
      · simpa [Nat.toDigitsCore, hz] using hds'
      · simpa [Nat.toDigitsCore, hz] using ih (n / 10) _ hds'

theorem repr_ne_nl (n : Nat) : '\n' ∉ (Nat.repr n).data := by
  have : '\n' ∉ Nat.toDigitsCore 10 (n + 1) n [] :=
    toDigitsCore_ne_nl (n + 1) n [] (by simp)
  simpa [Nat.repr, Nat.toDigits, List.asString] using this

theorem foldl_string_append (l : List String) (a b : String) :
    l.foldl (· ++ ·) (a ++ b) = a ++ l.foldl (· ++ ·) b := by
  induction l generalizing b with
  | nil => rfl
  | cons c cs ih => simp only [List.foldl_cons, String.append_assoc, ih]

theorem join_cons (s : String) (l : List String) :
    String.join (s :: l) = s ++ String.join l := by
  simp only [String.join, List.foldl_cons]
  rw [show ("" ++ s : String) = s ++ "" by simp]
  exact foldl_string_append l s ""

theorem data_join (l : List String) :
    (String.join l).data = (l.map String.data).flatten := by
  induction l with
  | nil => rfl
  | cons s l ih => simp [join_cons, String.data_append, ih]

theorem foldl_appendFile_other (path q : String) (hq : q ≠ path) (l : List String) (g : FS) :
    (l.foldl (fun acc c => appendFile acc path c) g) q = g q := by
  induction l generalizing g with
  | nil => rfl
  | cons c cs ih =>
      rw [List.foldl_cons, ih]
      simp [appendFile, setFile, hq]

theorem runWrite_other (fs : FS) (path : String) (chunks : List String) (done : Nat)
    (q : String) (hq : q ≠ path) : runWrite fs path chunks done q = fs q := by
  rw [runWrite, foldl_appendFile_other path q hq]
  simp [openWrite, setFile, hq]

theorem foldl_appendFile_at (path : String) (l : List String) (g : FS) (s : String)
    (hg : g path = some s) :
    (l.foldl (fun acc c => appendFile acc path c) g) path = some (s ++ String.join l) := by
  induction l generalizing g s with
  | nil =>
      rw [List.foldl_nil, hg, show String.join [] = "" from rfl, String.append_empty]
  | cons c cs ih =>
      rw [List.foldl_cons]
      have hstep : (appendFile g path c) path = some (s ++ c) := by
        simp [appendFile, setFile, hg]
      rw [ih _ _ hstep, join_cons, String.append_assoc]

theorem runWrite_at (fs : FS) (path : String) (chunks : List String) (done : Nat) :
    runWrite fs path chunks done path = some (String.join (chunks.take done)) := by
  rw [runWrite]
  have hopen : (openWrite fs path) path = some "" := by simp [openWrite, setFile]
  rw [foldl_appendFile_at path _ _ _ hopen, String.empty_append]

/-- One page's contribution to the Textract markdown artifact, as characters. -/
def textractPageChunk (p : TextractPage) : List Char :=
  ("## Page ").data ++ (Nat.repr p.page_number).data ++ ['\n', '\n'] ++
    p.content.data ++ ("\n\n---\n\n").data

/-- The page sections of the Textract markdown artifact, as characters. -/
def textractPagesEncode : List TextractPage → List Char
  | [] => []
  | p :: ps => textractPageChunk p ++ textractPagesEncode ps

theorem textract_pages_join_data (pages : List TextractPage) :
    (String.join (pages.flatMap (fun p =>
        ["## Page " ++ Nat.repr p.page_number ++ "\n\n", p.content, "\n\n---\n\n"]))).data
      = textractPagesEncode pages := by
  induction pages with
  | nil => rfl
  | cons p ps ih =>
      simp only [List.flatMap_cons, List.cons_append, List.nil_append,
        join_cons, String.data_append, ih]
      simp [textractPagesEncode, textractPageChunk, String.data_append, List.append_assoc]

theorem textractMarkdown_data (r : TextractResult) :
    (textractMarkdown r).data =
      ("# Textract Results for ").data ++ (r.file_name.data ++ ('\n' :: '\n' ::
        (("Processed at: ").data ++ (r.processed_at.data ++ ('\n' :: '\n' ::
          textractPagesEncode r.pages))))) := by
  rw [textractMarkdown, textractWriteSteps, join_cons, join_cons]
  simp only [String.data_append, textract_pages_join_data]
  simp [String.data_append, List.append_assoc]

theorem parsePagesAux_chunk (f : Nat) (numcs body rest : List Char)
    (hnum : '\n' ∉ numcs) (hbody : '\n' ∉ body) :
    parsePagesAux (f + 1)
        (("## Page ").data ++ (numcs ++ ('\n' :: '\n' ::
          (body ++ ((("\n\n---\n\n").data) ++ rest)))))
      = (parsePagesAux f rest).map (fun bs => body :: bs) := by
  have hne : ("## Page ").data ++ (numcs ++ ('\n' :: '\n' ::
      (body ++ ((("\n\n---\n\n").data) ++ rest)))) ≠ ([] : List Char) := by
    simp
  have h1 := stripPre_append ("## Page ").data (numcs ++ ('\n' :: '\n' ::
      (body ++ ((("\n\n---\n\n").data) ++ rest))))
  have h2 : splitAtSeq ['\n', '\n'] (numcs ++ ('\n' :: '\n' ::
      (body ++ ((("\n\n---\n\n").data) ++ rest))))
      = some (numcs, body ++ ((("\n\n---\n\n").data) ++ rest)) :=
    splitAtSeq_append '\n' ['\n'] numcs _ hnum
  have h3 : splitAtSeq (("\n\n---\n\n").data) (body ++ ((("\n\n---\n\n").data) ++ rest))
      = some (body, rest) :=
    splitAtSeq_append '\n' ['\n', '-', '-', '-', '\n', '\n'] body rest hbody
  simp only [parsePagesAux, if_neg hne, h1, h2, h3]

theorem parsePagesAux_encode (pages : List TextractPage) (fuel : Nat)
    (hf : (textractPagesEncode pages).length ≤ fuel)
    (hc : ∀ p ∈ pages, '\n' ∉ p.content.data) :
    parsePagesAux fuel (textractPagesEncode pages)
      = some (pages.map (fun p => p.content.data)) := by
  induction pages generalizing fuel with
  | nil => cases fuel <;> rfl
  | cons p ps ih =>
      have hchunk : 1 ≤ (textractPageChunk p).length := by
        simp [textractPageChunk]
      have hlen : (textractPagesEncode (p :: ps)).length
          = (textractPageChunk p).length + (textractPagesEncode ps).length := by
        simp [textractPagesEncode]
      cases fuel with
      | zero => omega
      | succ f =>
          have hf' : (textractPagesEncode ps).length ≤ f := by omega
          have hp : '\n' ∉ p.content.data := hc p (List.mem_cons_self p ps)
          have hps : ∀ q ∈ ps, '\n' ∉ q.content.data :=
            fun q hq => hc q (List.mem_cons_of_mem p hq)
          have hshape : textractPagesEncode (p :: ps)
              = ("## Page ").data ++ ((Nat.repr p.page_number).data ++ ('\n' :: '\n' ::
                  (p.content.data ++ ((("\n\n---\n\n").data) ++ textractPagesEncode ps)))) := by
            simp [textractPagesEncode, textractPageChunk, List.append_assoc]
          rw [hshape, parsePagesAux_chunk f _ _ _ (repr_ne_nl p.page_number) hp,
            ih f hf' hps]
          simp

theorem textract_roundtrip (r : TextractResult)
    (hfn : '\n' ∉ r.file_name.data) (hts : '\n' ∉ r.processed_at.data)
    (hc : ∀ p ∈ r.pages, '\n' ∉ p.content.data) :
    parseTextractMarkdown (textractMarkdown r)
      = some (r.file_name, r.processed_at, r.pages.map (fun p => p.content)) := by
  have h1 := stripPre_append ("# Textract Results for ").data
    (r.file_name.data ++ ('\n' :: '\n' :: (("Processed at: ").data ++
      (r.processed_at.data ++ ('\n' :: '\n' :: textractPagesEncode r.pages)))))
  have h2 : splitAtSeq ['\n', '\n'] (r.file_name.data ++ ('\n' :: '\n' ::
      (("Processed at: ").data ++ (r.processed_at.data ++ ('\n' :: '\n' ::
        textractPagesEncode r.pages)))))
      = some (r.file_name.data, ("Processed at: ").data ++
          (r.processed_at.data ++ ('\n' :: '\n' :: textractPagesEncode r.pages))) :=
    splitAtSeq_append '\n' ['\n'] r.file_name.data _ hfn
  have h3 := stripPre_append ("Processed at: ").data
    (r.processed_at.data ++ ('\n' :: '\n' :: textractPagesEncode r.pages))
  have h4 : splitAtSeq ['\n', '\n'] (r.processed_at.data ++ ('\n' :: '\n' ::
      textractPagesEncode r.pages))
      = some (r.processed_at.data, textractPagesEncode r.pages) :=
    splitAtSeq_append '\n' ['\n'] r.processed_at.data _ hts
  have h5 := parsePagesAux_encode r.pages (textractPagesEncode r.pages).length
    (Nat.le_refl _) hc
  rw [parseTextractMarkdown, textractMarkdown_data]
  simp only [h1, h2, h3, h4, h5, Option.map_some]
  simp [List.map_map]

theorem textractProcessPdf_file_name (dataFiles : List String)
    (load : String → Nat → Except PErr (List TextractDoc))
    (fn iso st : String) (r : TextractResult)
    (h : (textractProcessPdf dataFiles load fn iso st).result.toOption = some r) :
    r.file_name = fn := by
  by_cases hmem : fn ∈ dataFiles
  · cases hload : load fn 0 with
    | error e => simp [textractProcessPdf, hmem, hload, Except.toOption] at h
    | ok docs =>
        simp [textractProcessPdf, hmem, hload, Except.toOption] at h
        rw [← h]
  · simp [textractProcessPdf, hmem, Except.toOption] at h

theorem mistralProcessPdf_file_name (dataFiles : List String)
    (ocr : String → Nat → Except PErr (List MistralRespPage))
    (fn iso st : String) (r : MistralResult)
    (h : (mistralProcessPdf dataFiles ocr fn iso st).result.toOption = some r) :
    r.file_name = fn := by
  by_cases hmem : fn ∈ dataFiles
  · cases hload : ocr fn 0 with
    | error e => simp [mistralProcessPdf, hmem, hload, Except.toOption] at h
    | ok resp =>
        simp [mistralProcessPdf, hmem, hload, Except.toOption] at h
        rw [← h]
  · simp [mistralProcessPdf, hmem, Except.toOption] at h

theorem filterMap_map_name {α : Type} (f : String → Option α) (name : α → String)
    (hname : ∀ n b, f n = some b → name b = n) (l : List String) :
    (l.filterMap f).map name = l.filter (fun n => (f n).isSome) := by
  induction l with
  | nil => rfl
  | cons n l ih =>
      cases hfn : f n with
      | none => simp [List.filterMap_cons, hfn, List.filter_cons, ih]
      | some b => simp [List.filterMap_cons, hfn, List.filter_cons, hname n b hfn, ih]

theorem length_filter_ne (l : List String) (k : String) :
    (l.filter (fun n => !(n == k))).length = l.length - l.count k := by
  induction l with
  | nil => rfl
  | cons a l ih =>
      have hcl : l.count k ≤ l.length := List.count_le_length k l
      by_cases hak : a = k
      · subst hak
        have e : (a :: l).filter (fun n => !(n == a)) = l.filter (fun n => !(n == a)) := by
          simp [List.filter_cons]
        rw [e, List.count_cons_self, List.length_cons, ih]
        omega
      · have e : (a :: l).filter (fun n => !(n == k)) = a :: l.filter (fun n => !(n == k)) := by
          simp [List.filter_cons, hak]
        have e2 : (a :: l).count k = l.count k := by
          simp [List.count_cons, hak]
        rw [e, e2, List.length_cons, List.length_cons, ih]
        omega

theorem name_inj (a suf s1 s2 : String) (h : a ++ s1 ++ suf = a ++ s2 ++ suf) :
    s1 = s2 := by
  have hd : a.data ++ (s1.data ++ suf.data) = a.data ++ (s2.data ++ suf.data) := by
    have := congrArg String.data h
    simpa [String.data_append, List.append_assoc] using this
  have h1 : s1.data ++ suf.data = s2.data ++ suf.data := List.append_cancel_left hd
  exact String.ext (List.append_cancel_right h1)

/-! Claim theorems. -/

/-- C10: in every result of `AmazonTextractParser.process_pdf`, the page
numbers are assigned purely by 1-based enumeration order of the loader's
returned documents, ignoring any page numbering in provider metadata, so
they are exactly the consecutive sequence `1..N` with no gaps. -/
theorem c10_textract_consecutive (docs : List TextractDoc) :
    (textractPages docs).map (fun p => p.page_number) = List.range' 1 docs.length := by
  rw [textractPages, textractPagesFrom_map]

/-- C2 (counterexample): `MistralOCRParser.process_pdf` copies the provider's
`page.index` into `page_number` verbatim, so a provider response with
indices `[2, 1]` yields a result whose page numbers are not strictly
increasing, refuting the claim that every parser's result has strictly
increasing page numbers. -/
theorem c2_counterexample :
    ((mistralProcessPdf ["f.pdf"] (fun _ _ => Except.ok [⟨2, "x"⟩, ⟨1, "y"⟩])
        "f.pdf" "2024-01-01T12:00:00" "20240101_120000").result.toOption.map
      (fun r => r.pages.map (fun p => p.page_number))) = some [2, 1]
    ∧ ¬ List.Chain' (· < ·) [(2 : Int), 1] := by
  constructor
  · decide
  · simp [List.chain'_cons]

/-- C2 (amended): Textract and Llama assign page/chunk numbers by emission
order starting at 1, so their sequences are strictly increasing and every
number is at least 1; Mistral copies the provider's `page.index` verbatim,
so its sequence is strictly increasing whenever the provider's indices are. -/
theorem c2_page_order_amended (docs : List TextractDoc) (ldocs : List LlamaDoc)
    (resp : List MistralRespPage)
    (hresp : List.Chain' (· < ·) (resp.map (fun p => p.index))) :
    List.Chain' (· < ·) ((textractPages docs).map (fun p => p.page_number))
    ∧ (∀ m ∈ (textractPages docs).map (fun p => p.page_number), 1 ≤ m)
    ∧ List.Chain' (· < ·) ((llamaChunks ldocs).map (fun c => c.chunk_number))
    ∧ (∀ m ∈ (llamaChunks ldocs).map (fun c => c.chunk_number), 1 ≤ m)
    ∧ List.Chain' (· < ·) ((mistralPages resp).map (fun p => p.page_number)) := by
  refine ⟨?_, ?_, ?_, ?_, ?_⟩
  · rw [textractPages, textractPagesFrom_map]
    exact chain'_lt_range' 1 _
  · rw [textractPages, textractPagesFrom_map]
    intro m hm
    exact (List.mem_range'_1.mp hm).1
  · rw [llamaChunks, llamaChunksFrom_map]
    exact chain'_lt_range' 1 _
  · rw [llamaChunks, llamaChunksFrom_map]
    intro m hm
    exact (List.mem_range'_1.mp hm).1
  · rw [mistralPages_map]
    exact hresp

/-- C2 (witness): the amended order statement at concrete inputs. -/
theorem c2_witness :
    List.Chain' (· < ·) (([⟨0, "p"⟩, ⟨3, "q"⟩] : List MistralRespPage).map (fun p => p.index))
    ∧ (List.Chain' (· < ·)
        ((textractPages [⟨"a", []⟩, ⟨"b", []⟩]).map (fun p => p.page_number))
      ∧ (∀ m ∈ (textractPages [⟨"a", []⟩, ⟨"b", []⟩]).map (fun p => p.page_number), 1 ≤ m)
      ∧ List.Chain' (· < ·) ((llamaChunks [⟨"x"⟩]).map (fun c => c.chunk_number))
      ∧ (∀ m ∈ (llamaChunks [⟨"x"⟩]).map (fun c => c.chunk_number), 1 ≤ m)
      ∧ List.Chain' (· < ·) ((mistralPages [⟨0, "p"⟩, ⟨3, "q"⟩]).map (fun p => p.page_number))) := by
  have h : List.Chain' (· < ·)
      (([⟨0, "p"⟩, ⟨3, "q"⟩] : List MistralRespPage).map (fun p => p.index)) := by
    simp [List.chain'_cons]
  exact ⟨h, c2_page_order_amended [⟨"a", []⟩, ⟨"b", []⟩] [⟨"x"⟩] [⟨0, "p"⟩, ⟨3, "q"⟩] h⟩

/-- C8: when the resolved input path does not exist, `process_pdf` raises
`FileNotFoundError` before making any provider call, and creates no output
artifact (Textract, Mistral and Unstructured variants). -/
theorem c8_not_found_before_submit (dataFiles inputFiles : List String)
    (load : String → Nat → Except PErr (List TextractDoc))
    (ocr : String → Nat → Except PErr (List MistralRespPage))
    (uload : String → Nat → Except PErr (List String))
    (fn iso st : String) :
    (fn ∉ dataFiles → textractProcessPdf dataFiles load fn iso st
        = ⟨Except.error (PErr.fileNotFound fn), 0, []⟩)
    ∧ (fn ∉ dataFiles → mistralProcessPdf dataFiles ocr fn iso st
        = ⟨Except.error (PErr.fileNotFound fn), 0, []⟩)
    ∧ (fn ∉ inputFiles → unstructuredProcessPdf inputFiles uload fn st
        = ⟨Except.error (PErr.fileNotFound fn), 0, []⟩) := by
  refine ⟨fun h => ?_, fun h => ?_, fun h => ?_⟩
  · simp [textractProcessPdf, h]
  · simp [mistralProcessPdf, h]
  · simp [unstructuredProcessPdf, h]

/-- C8 (witness): the not-found behavior at a concrete missing file. -/
theorem c8_witness :
    ("missing.pdf" : String) ∉ (["other.pdf"] : List String)
    ∧ textractProcessPdf ["other.pdf"] (fun _ _ => Except.ok [])
        "missing.pdf" "2024-01-01T12:00:00" "20240101_120000"
      = ⟨Except.error (PErr.fileNotFound "missing.pdf"), 0, []⟩
    ∧ mistralProcessPdf ["other.pdf"] (fun _ _ => Except.ok [])
        "missing.pdf" "2024-01-01T12:00:00" "20240101_120000"
      = ⟨Except.error (PErr.fileNotFound "missing.pdf"), 0, []⟩
    ∧ unstructuredProcessPdf ["other.pdf"] (fun _ _ => Except.ok [])
        "missing.pdf" "20240101_120000"
      = ⟨Except.error (PErr.fileNotFound "missing.pdf"), 0, []⟩ := by
  have h := c8_not_found_before_submit ["other.pdf"] ["other.pdf"]
    (fun _ _ => Except.ok []) (fun _ _ => Except.ok []) (fun _ _ => Except.ok [])
    "missing.pdf" "2024-01-01T12:00:00" "20240101_120000"
  exact ⟨by decide, h.1 (by decide), h.2.1 (by decide), h.2.2 (by decide)⟩

/-- C9: on success, `UnstructuredParser.process_pdf` flattens all
provider-returned elements into a single newline-joined string with no
per-page boundaries, writes it to a `.txt` artifact, and returns the output
path as a string. -/
theorem c9_unstructured_flat (inputFiles : List String)
    (load : String → Nat → Except PErr (List String))
    (fn st : String) (docs : List String)
    (hmem : fn ∈ inputFiles) (hok : load fn 0 = Except.ok docs) :
    unstructuredProcessPdf inputFiles load fn st
      = ⟨Except.ok (unstructuredOutputName fn st), 1,
          [(unstructuredOutputName fn st, String.intercalate "\n" docs)]⟩ := by
  simp [unstructuredProcessPdf, hmem, hok]

/-- C9 (witness): the flattening behavior at a concrete input. -/
theorem c9_witness :
    ("in.pdf" : String) ∈ (["in.pdf"] : List String)
    ∧ unstructuredProcessPdf ["in.pdf"] (fun _ _ => Except.ok ["alpha", "beta"])
        "in.pdf" "20240101_120000"
      = ⟨Except.ok (unstructuredOutputName "in.pdf" "20240101_120000"), 1,
          [(unstructuredOutputName "in.pdf" "20240101_120000",
            String.intercalate "\n" ["alpha", "beta"])]⟩ :=
  ⟨by decide, c9_unstructured_flat ["in.pdf"] (fun _ _ => Except.ok ["alpha", "beta"])
    "in.pdf" "20240101_120000" ["alpha", "beta"] (by decide) rfl⟩

/-- C6 (counterexample): `process_directory` uses the directory iterator's
order as-is; for a listing `["b.pdf", "a.pdf"]` the results come back in
that order, not in the lexicographic order `["a.pdf", "b.pdf"]` the claim
prescribes. -/
theorem c6_counterexample :
    (textractProcessDirectory ["b.pdf", "a.pdf"] (fun _ _ => Except.ok [])
        ["b.pdf", "a.pdf"] "2024-01-01T12:00:00" "20240101_120000").map
      (fun r => r.file_name) = ["b.pdf", "a.pdf"]
    ∧ specLexSorted ["b.pdf", "a.pdf"] = ["a.pdf", "b.pdf"]
    ∧ (["b.pdf", "a.pdf"] : List String) ≠ ["a.pdf", "b.pdf"] := by
  refine ⟨by decide, ?_, by decide⟩
  decide

/-- C6 (amended): `process_directory` iterates documents in exactly the
order the directory iterator yields them, returning the successful results
as an order-preserving subsequence of the listing; no sorting is applied,
so the order is deterministic only relative to the listing order. -/
theorem c6_iteration_order_amended (dataFiles : List String)
    (load : String → Nat → Except PErr (List TextractDoc))
    (listing : List String) (iso st : String) :
    (textractProcessDirectory dataFiles load listing iso st).map (fun r => r.file_name)
      = listing.filter
          (fun n => ((textractProcessPdf dataFiles load n iso st).result.toOption).isSome) := by
  simp only [textractProcessDirectory]
  exact filterMap_map_name _ _
    (fun n b hb => textractProcessPdf_file_name dataFiles load n iso st b hb) listing

/-- Provider behavior used by the C1 counterexample and witness: document
`a.pdf` hits a fatal provider error, every other document succeeds. -/
def c1Load : String → Nat → Except PErr (List TextractDoc) :=
  fun n _ => if n = "a.pdf" then Except.error (PErr.fatal "unsupported file format")
             else Except.ok []

/-- C1 (counterexample): for a two-document batch where `a.pdf` raises a
fatal provider error, `process_directory` returns only the single success
for `b.pdf`; the return value carries no failure entry at all, refuting the
claim that the batch result records the failure with file name, error kind
and message. -/
theorem c1_counterexample :
    textractProcessDirectory ["a.pdf", "b.pdf"] c1Load ["a.pdf", "b.pdf"]
        "2024-01-01T12:00:00" "20240101_120000"
      = [⟨"b.pdf", "2024-01-01T12:00:00", []⟩] := by
  decide

/-- C1 (amended): when processing of exactly one document `k` raises an
error, `process_directory` catches it, skips that document, continues with
the remaining documents in listing order, and returns exactly the `N - 1`
successes; the failure is only logged, and no failure record is part of
the return value (Textract and Mistral variants). -/
theorem c1_batch_skips_failures :
    (∀ (dataFiles : List String) (load : String → Nat → Except PErr (List TextractDoc))
        (listing : List String) (iso st k : String),
      listing.count k = 1 →
      (textractProcessPdf dataFiles load k iso st).result.toOption = none →
      (∀ n ∈ listing, n ≠ k →
        ((textractProcessPdf dataFiles load n iso st).result.toOption).isSome) →
      (textractProcessDirectory dataFiles load listing iso st).map (fun r => r.file_name)
          = listing.filter (fun n => !(n == k))
        ∧ (textractProcessDirectory dataFiles load listing iso st).length
          = listing.length - 1)
    ∧ (∀ (dataFiles : List String) (ocr : String → Nat → Except PErr (List MistralRespPage))
        (listing : List String) (iso st k : String),
      listing.count k = 1 →
      (mistralProcessPdf dataFiles ocr k iso st).result.toOption = none →
      (∀ n ∈ listing, n ≠ k →
        ((mistralProcessPdf dataFiles ocr n iso st).result.toOption).isSome) →
      (mistralProcessDirectory dataFiles ocr listing iso st).map (fun r => r.file_name)
          = listing.filter (fun n => !(n == k))
        ∧ (mistralProcessDirectory dataFiles ocr listing iso st).length
          = listing.length - 1) := by
  constructor
  · intro dataFiles load listing iso st k hcount hk hok
    have h1 : (textractProcessDirectory dataFiles load listing iso st).map
        (fun r => r.file_name) = listing.filter (fun n => !(n == k)) := by
      simp only [textractProcessDirectory]
      rw [filterMap_map_name _ _
        (fun n b hb => textractProcessPdf_file_name dataFiles load n iso st b hb) listing]
      apply List.filter_congr
      intro x hx
      by_cases hxk : x = k
      · subst hxk
        simp [hk]
      · simp [hxk, hok x hx hxk]
    refine ⟨h1, ?_⟩
    have h2 : (textractProcessDirectory dataFiles load listing iso st).length
        = ((textractProcessDirectory dataFiles load listing iso st).map
            (fun r => r.file_name)).length := (List.length_map _ _).symm
    rw [h2, h1, length_filter_ne, hcount]
  · intro dataFiles ocr listing iso st k hcount hk hok
    have h1 : (mistralProcessDirectory dataFiles ocr listing iso st).map
        (fun r => r.file_name) = listing.filter (fun n => !(n == k)) := by
      simp only [mistralProcessDirectory]
      rw [filterMap_map_name _ _
        (fun n b hb => mistralProcessPdf_file_name dataFiles ocr n iso st b hb) listing]
      apply List.filter_congr
      intro x hx
      by_cases hxk : x = k
      · subst hxk
        simp [hk]
      · simp [hxk, hok x hx hxk]
    refine ⟨h1, ?_⟩
    have h2 : (mistralProcessDirectory dataFiles ocr listing iso st).length
        = ((mistralProcessDirectory dataFiles ocr listing iso st).map
            (fun r => r.file_name)).length := (List.length_map _ _).symm
    rw [h2, h1, length_filter_ne, hcount]

/-- C1 (witness): the amended batch behavior on a concrete two-document
batch whose first document fails fatally. -/
theorem c1_witness :
    (["a.pdf", "b.pdf"] : List String).count "a.pdf" = 1
    ∧ (textractProcessDirectory ["a.pdf", "b.pdf"] c1Load ["a.pdf", "b.pdf"]
          "2024-01-01T12:00:00" "20240101_120000").map (fun r => r.file_name)
        = (["a.pdf", "b.pdf"] : List String).filter (fun n => !(n == "a.pdf"))
    ∧ (textractProcessDirectory ["a.pdf", "b.pdf"] c1Load ["a.pdf", "b.pdf"]
          "2024-01-01T12:00:00" "20240101_120000").length
        = (["a.pdf", "b.pdf"] : List String).length - 1 := by
  have h := c1_batch_skips_failures.1 ["a.pdf", "b.pdf"] c1Load ["a.pdf", "b.pdf"]
    "2024-01-01T12:00:00" "20240101_120000" "a.pdf" (by decide) (by decide)
    (by decide)
  exact ⟨by decide, h.1, h.2⟩

/-- C3 (counterexample): the writer opens the final output path directly
(no temporary path), so a crash after the first `f.write` leaves a partial
file at the final output path, refuting the claim that a mid-write failure
leaves no file there. -/
theorem c3_counterexample :
    runWrite (fun _ => none) (textractOutputName "file.pdf" "20240101_120000")
        (textractWriteSteps ⟨"file.pdf", "2024-01-01T12:00:00", [⟨1, "hello", []⟩]⟩) 1
        (textractOutputName "file.pdf" "20240101_120000")
      = some "# Textract Results for file.pdf\n\n"
    ∧ (some "# Textract Results for file.pdf\n\n" : Option String) ≠ none := by
  exact ⟨by decide, by decide⟩

/-- C3 (amended): the writer opens the final output path directly and
writes chunk by chunk; a failure after `done` chunks leaves exactly the
concatenation of those chunks at the final output path (a partial file,
not no file), while every other path — in particular previously-written
artifacts — is unchanged. -/
theorem c3_write_partial_at_final_path (fs : FS) (path : String)
    (chunks : List String) (done : Nat) (q : String) (hq : q ≠ path) :
    runWrite fs path chunks done q = fs q
    ∧ runWrite fs path chunks done path = some (String.join (chunks.take done)) :=
  ⟨runWrite_other fs path chunks done q hq, runWrite_at fs path chunks done⟩

/-- C3 (witness): the amended write behavior at a concrete crash point. -/
theorem c3_witness :
    ("previous.md" : String) ≠ textractOutputName "file.pdf" "20240101_120000"
    ∧ runWrite (fun _ => none) (textractOutputName "file.pdf" "20240101_120000")
        (textractWriteSteps ⟨"file.pdf", "2024-01-01T12:00:00", [⟨1, "hello", []⟩]⟩) 1
        "previous.md" = none
    ∧ runWrite (fun _ => none) (textractOutputName "file.pdf" "20240101_120000")
        (textractWriteSteps ⟨"file.pdf", "2024-01-01T12:00:00", [⟨1, "hello", []⟩]⟩) 1
        (textractOutputName "file.pdf" "20240101_120000")
      = some (String.join ((textractWriteSteps
          ⟨"file.pdf", "2024-01-01T12:00:00", [⟨1, "hello", []⟩]⟩).take 1)) := by
  have h := c3_write_partial_at_final_path (fun _ => none)
    (textractOutputName "file.pdf" "20240101_120000")
    (textractWriteSteps ⟨"file.pdf", "2024-01-01T12:00:00", [⟨1, "hello", []⟩]⟩) 1
    "previous.md" (by decide)
  exact ⟨by decide, h.1, h.2⟩

/-- C4 (counterexample): the Mistral writer never writes the
`processed_at` field, so two results differing only in `processed_at`
produce the identical markdown artifact; no reader can recover the
timestamp, refuting the round-trip claim for this writer. -/
theorem c4_counterexample :
    mistralMarkdown ⟨"f.pdf", "2024-01-01T10:00:00", [⟨0, "x"⟩]⟩
      = mistralMarkdown ⟨"f.pdf", "2024-01-01T11:11:11", [⟨0, "x"⟩]⟩
    ∧ ("2024-01-01T10:00:00" : String) ≠ "2024-01-01T11:11:11" :=
  ⟨rfl, by decide⟩

/-- C4 (amended): writing a result through the Textract markdown writer and
re-reading recovers the file name, the `processed_at` timestamp and every
page text verbatim, provided none of them contains a newline; the Mistral
and Llama writers omit `processed_at` from the artifact entirely (their
output is invariant under changes to it), so the timestamp is not
recoverable from those artifacts. -/
theorem c4_roundtrip_amended (r : TextractResult)
    (hfn : '\n' ∉ r.file_name.data) (hts : '\n' ∉ r.processed_at.data)
    (hc : ∀ p ∈ r.pages, '\n' ∉ p.content.data) :
    parseTextractMarkdown (textractMarkdown r)
        = some (r.file_name, r.processed_at, r.pages.map (fun p => p.content))
    ∧ (∀ (fn ts ts' : String) (pages : List MistralPage),
        mistralMarkdown ⟨fn, ts, pages⟩ = mistralMarkdown ⟨fn, ts', pages⟩)
    ∧ (∀ (fn ts ts' : String) (chunks : List LlamaChunk),
        llamaMarkdown ⟨fn, ts, chunks⟩ = llamaMarkdown ⟨fn, ts', chunks⟩) :=
  ⟨textract_roundtrip r hfn hts hc, fun _ _ _ _ => rfl, fun _ _ _ _ => rfl⟩

/-- C4 (witness): the Textract round-trip at a concrete two-page result. -/
theorem c4_witness :
    ('\n' ∉ ("file.pdf" : String).data)
    ∧ ('\n' ∉ ("2024-01-01T11:59:59" : String).data)
    ∧ parseTextractMarkdown (textractMarkdown
        ⟨"file.pdf", "2024-01-01T11:59:59", [⟨1, "hello", []⟩, ⟨2, "world", []⟩]⟩)
      = some ("file.pdf", "2024-01-01T11:59:59", ["hello", "world"]) := by
  have h := c4_roundtrip_amended
    ⟨"file.pdf", "2024-01-01T11:59:59", [⟨1, "hello", []⟩, ⟨2, "world", []⟩]⟩
    (by decide) (by decide) (by decide)
  exact ⟨by decide, by decide, h.1⟩

/-- C5 (counterexample): the Unstructured parser writes a `.txt` artifact,
the Azure parser uses the raw blob name without stripping the extension,
and the Textract parser stamps the output name with a fresh clock reading
taken at save time, not with a stamp derived from `processed_at` — three
concrete refutations of the claimed naming rule. -/
theorem c5_counterexample :
    unstructuredOutputName "file.pdf" "20240101_120000" = "file_20240101_120000.txt"
    ∧ ("file_20240101_120000.txt" : String) ≠ "file_20240101_120000.md"
    ∧ azureOutputName "doc.pdf" "20240101_120000" = "doc.pdf_20240101_120000.md"
    ∧ rsplitStem "doc.pdf" = "doc"
    ∧ ("doc.pdf_20240101_120000.md" : String) ≠ "doc_20240101_120000.md"
    ∧ (textractProcessPdf ["f.pdf"] (fun _ _ => Except.ok [])
        "f.pdf" "2024-01-01T11:59:59" "20240101_120001").writes.map Prod.fst
      = ["f_20240101_120001.md"]
    ∧ specOutputName "f.pdf" "2024-01-01T11:59:59" = "f_20240101_115959.md"
    ∧ ("f_20240101_120001.md" : String) ≠ "f_20240101_115959.md" := by
  decide

/-- C5 (amended): the output artifact's name is the input name's stem
(text before the last dot) plus an underscore, plus the `YYYYMMDD_HHMMSS`
stamp of a fresh clock reading taken at save time, plus `.md` for the
Textract parser (`.txt` for Unstructured; Azure uses the unstripped blob
name); distinct save-time stamps never produce colliding output paths. -/
theorem c5_naming_amended (dataFiles : List String)
    (load : String → Nat → Except PErr (List TextractDoc))
    (fn b iso st s1 s2 : String) (docs : List TextractDoc)
    (hmem : fn ∈ dataFiles) (hok : load fn 0 = Except.ok docs) (hne : s1 ≠ s2) :
    (textractProcessPdf dataFiles load fn iso st).writes.map Prod.fst
        = [textractOutputName fn st]
    ∧ textractOutputName fn st = rsplitStem fn ++ "_" ++ st ++ ".md"
    ∧ unstructuredOutputName fn st = rsplitStem fn ++ "_" ++ st ++ ".txt"
    ∧ azureOutputName b st = b ++ "_" ++ st ++ ".md"
    ∧ textractOutputName fn s1 ≠ textractOutputName fn s2
    ∧ unstructuredOutputName fn s1 ≠ unstructuredOutputName fn s2
    ∧ azureOutputName b s1 ≠ azureOutputName b s2 := by
  refine ⟨?_, rfl, rfl, rfl, ?_, ?_, ?_⟩
  · simp [textractProcessPdf, hmem, hok]
  · intro h
    exact hne (name_inj (rsplitStem fn ++ "_") ".md" s1 s2 h)
  · intro h
    exact hne (name_inj (rsplitStem fn ++ "_") ".txt" s1 s2 h)
  · intro h
    exact hne (name_inj (b ++ "_") ".md" s1 s2 h)

/-- C5 (witness): the amended naming rule at concrete values. -/
theorem c5_witness :
    ("f.pdf" : String) ∈ (["f.pdf"] : List String)
    ∧ ("20240101_120001" : String) ≠ "20240101_120002"
    ∧ (textractProcessPdf ["f.pdf"] (fun _ _ => Except.ok [])
        "f.pdf" "2024-01-01T11:59:59" "20240101_120001").writes.map Prod.fst
      = [textractOutputName "f.pdf" "20240101_120001"]
    ∧ textractOutputName "f.pdf" "20240101_120001"
      ≠ textractOutputName "f.pdf" "20240101_120002" := by
  have h := c5_naming_amended ["f.pdf"] (fun _ _ => Except.ok [])
    "f.pdf" "blob.pdf" "2024-01-01T11:59:59" "20240101_120001"
    "20240101_120001" "20240101_120002" [] (by decide) rfl (by decide)
  exact ⟨by decide, by decide, h.1, h.2.2.2.2.1⟩

/-- Provider behavior used by the C7 counterexample: the first attempt
fails with a transient error, every later attempt would succeed. -/
def c7Load : String → Nat → Except PErr (List TextractDoc) :=
  fun _ k => if k = 0 then Except.error (PErr.transient "rate limited")
             else Except.ok []

/-- C7 (counterexample): the adapter makes exactly one provider call and
propagates the transient error, even though a second attempt would have
succeeded — the spec's three-attempt retry (`specRetrySubmit`) would have
returned success — refuting the claim that transient errors are retried. -/
theorem c7_counterexample :
    (textractProcessPdf ["a.pdf"] c7Load "a.pdf"
        "2024-01-01T12:00:00" "20240101_120000").result
      = Except.error (PErr.transient "rate limited")
    ∧ (textractProcessPdf ["a.pdf"] c7Load "a.pdf"
        "2024-01-01T12:00:00" "20240101_120000").providerCalls = 1
    ∧ specRetrySubmit (c7Load "a.pdf") = Except.ok [] :=
  ⟨rfl, rfl, rfl⟩

/-- C7 (amended): `process_pdf` makes exactly one provider call per
document and propagates any provider error unchanged; there is no retry or
backoff anywhere, for transient errors or otherwise (Textract and Mistral
variants). -/
theorem c7_no_retry_amended (dataFiles : List String)
    (load : String → Nat → Except PErr (List TextractDoc))
    (ocr : String → Nat → Except PErr (List MistralRespPage))
    (fn iso st : String) (e : PErr) (hmem : fn ∈ dataFiles) :
    (textractProcessPdf dataFiles load fn iso st).providerCalls = 1
    ∧ (load fn 0 = Except.error e →
        (textractProcessPdf dataFiles load fn iso st).result = Except.error e)
    ∧ (mistralProcessPdf dataFiles ocr fn iso st).providerCalls = 1
    ∧ (ocr fn 0 = Except.error e →
        (mistralProcessPdf dataFiles ocr fn iso st).result = Except.error e) := by
  refine ⟨?_, fun hl => ?_, ?_, fun hl => ?_⟩
  · cases hl : load fn 0 <;> simp [textractProcessPdf, hmem, hl]
  · simp [textractProcessPdf, hmem, hl]
  · cases hl : ocr fn 0 <;> simp [mistralProcessPdf, hmem, hl]
  · simp [mistralProcessPdf, hmem, hl]

/-- C7 (witness): the single-call, no-retry behavior at a concrete input. -/
theorem c7_witness :
    ("a.pdf" : String) ∈ (["a.pdf"] : List String)
    ∧ (textractProcessPdf ["a.pdf"] c7Load "a.pdf"
        "2024-01-01T12:00:00" "20240101_120000").providerCalls = 1
    ∧ (textractProcessPdf ["a.pdf"] c7Load "a.pdf"
        "2024-01-01T12:00:00" "20240101_120000").result
      = Except.error (PErr.transient "rate limited") := by
  have h := c7_no_retry_amended ["a.pdf"] c7Load (fun _ _ => Except.ok [])
    "a.pdf" "2024-01-01T12:00:00" "20240101_120000"
    (PErr.transient "rate limited") (by decide)
  exact ⟨by decide, h.1, h.2.1 rfl⟩

end DocParser
